import Mathlib

/- Verification of the windowing / segment-reconstruction / job-dispatch core of the
   Video2tasks repository (server_A_pi0_final.py and src/video2tasks/server/windowing.py).

   Modelling conventions (shallow embedding):
   * Machine floats are modelled as exact rationals.  The float literals
     `1e-6`, `1e-9`, `0.8`, `0.2`, `2.5` of the source are modelled by the exact
     rationals they denote in the source text.
   * Python `int(x)` / numpy `astype(int)` truncate toward zero; every value they
     are applied to in this code is non-negative, so they are modelled as floor.
     Where the operand is an exact ratio of integers `n/d` (`d > 0`) the floor is
     written as the integer division `n / d`, which is exactly `Int.floor (n / d : ℚ)`
     (`Rat.floor_intCast_div_natCast`); a bridge lemma is proved for `min_frames`.
   * Python `round` rounds half to even; `roundHalfEvenFrac n d` computes it for
     the exact ratio `n/d`.
   * The hanning-window interior `np.hanning(frames_per_window + 2)[1:-1]`
     (a list of transcendental reals) is passed as an explicit rational-valued
     parameter `cw`; no claim below depends on its values.
   * `vlm_json` payloads are modelled as already-parsed integers/strings; a
     `transitions` entry on which Python `int(...)` would raise corresponds to an
     absent entry. -/

/-- `Window` dataclass of the source: window_id, start_frame, end_frame (inclusive),
and the sampled frame ids. -/
structure Window where
  window_id : ℕ
  start_frame : ℕ
  end_frame : ℕ
  frame_ids : List ℕ
deriving DecidableEq, Repr, Inhabited

/-- Python `round` (round half to even) of the exact rational `n / d`, `d > 0`:
floor when the fractional part `(n % d)/d` is below one half, ceiling when above,
and the even neighbour at exactly one half. -/
def roundHalfEvenFrac (n : ℤ) (d : ℕ) : ℤ :=
  if 2 * (n % d) < d then n / d
  else if (d : ℤ) < 2 * (n % d) then n / d + 1
  else if Even (n / d) then n / d else n / d + 1

/-- The `if fps < 1e-6: fps = 30.0` fallback performed by both `build_windows`
and `build_segments_via_cuts`. -/
def effFps (fps : ℚ) : ℚ := if fps < mkRat 1 1000000 then 30 else fps

/-- `win_len = max(1, int(round(window_sec * fps)))` (and likewise `step`):
the float product is modelled as the exact rational `(sec.num·fps.num)/(sec.den·fps.den)`. -/
def secToFrames (sec fps : ℚ) : ℕ :=
  max 1 (roundHalfEvenFrac (sec.num * (effFps fps).num) (sec.den * (effFps fps).den)).toNat

/-- `k`-th value of `np.linspace(s, e, num).astype(int)` for `s ≤ e`: for `num ≥ 2`
the values are `s + k·(e−s)/(num−1) ≥ 0`, whose truncation toward zero is the
floor `(s·(num−1) + k·(e−s)) / (num−1)`; `np.linspace(s, e, 1) = [s]`. -/
def linNat (s e num k : ℕ) : ℕ :=
  if num ≤ 1 then s else (s * (num - 1) + k * (e - s)) / (num - 1)

/-- The inner `get_frames(s, e, num)` of `build_windows`:
`np.clip(np.linspace(s, e, num=fpw).astype(int), 0, nframes - 1).tolist()`
(the lower clip at 0 is vacuous on these non-negative values). -/
def getFrames (nframes fpw s e : ℕ) : List ℕ :=
  (List.range fpw).map (fun k => min (nframes - 1) (linNat s e fpw k))

/-- The `while s < nframes` loop of `build_windows`, unfolded on explicit fuel.
Each iteration advances `s` by `step ≥ 1` (the caller passes `step = max 1 …`),
so starting from `s = 0` the loop performs at most `nframes` iterations and
`fuel = nframes` makes the fuelled loop coincide with the unbounded one. -/
def buildWindowsAux (nframes winLen step fpw : ℕ) : ℕ → ℕ → ℕ → List Window
  | 0, _, _ => []
  | fuel + 1, s, wid =>
    if s < nframes then
      if min (nframes - 1) (s + winLen - 1) - s < winLen / 2 ∧ 0 < wid then []
      else
        ⟨wid, s, min (nframes - 1) (s + winLen - 1),
          getFrames nframes fpw s (min (nframes - 1) (s + winLen - 1))⟩ ::
          buildWindowsAux nframes winLen step fpw fuel (s + step) (wid + 1)
    else []

/-- `build_windows(fps, nframes)` (windowing.py keeps `window_sec`, `step_sec`,
`frames_per_window` as parameters; server_A binds them to module config). -/
def build_windows (fps : ℚ) (nframes : ℕ) (window_sec step_sec : ℚ)
    (frames_per_window : ℕ) : List Window :=
  buildWindowsAux nframes (secToFrames window_sec fps) (secToFrames step_sec fps)
    frames_per_window nframes 0 0

/-- Parsed `vlm_json` payload of one recorded window result. -/
structure VlmJson where
  transitions : List ℤ
  instructions : List String
deriving DecidableEq, Repr, Inhabited

/-- One output segment (`seg_id`, `start_frame`, `end_frame` exclusive,
`instruction`, `confidence`). -/
structure Seg where
  seg_id : ℕ
  start_frame : ℕ
  end_frame : ℕ
  instruction : String
  confidence : ℚ
deriving DecidableEq, Repr, Inhabited

/-- The final per-sample artifact dict: `{sample_id, nframes, segments}`. -/
structure SegArtifact where
  sample_id : String
  nframes : ℕ
  segments : List Seg
deriving DecidableEq, Repr, Inhabited

/-- Python `str.lower()` (on the characters appearing here). -/
def pyLower (s : String) : String := String.mk (s.data.map Char.toLower)

/-- Python `str.strip()`: remove leading and trailing whitespace. -/
def pyStrip (s : String) : String :=
  String.mk ((s.data.dropWhile Char.isWhitespace).reverse.dropWhile Char.isWhitespace).reverse

/-- `sorted(list(set(l)))` via insertion: the strictly increasing enumeration of
the elements of `l`. -/
def insertSortedU (x : ℕ) : List ℕ → List ℕ
  | [] => [x]
  | y :: ys => if x < y then x :: y :: ys else if x = y then y :: ys else y :: insertSortedU x ys

/-- `sorted(list(set(l)))`. -/
def sortedDedup (l : List ℕ) : List ℕ := l.foldr insertSortedU []

/-- Stable insertion (before the first strictly greater key), used to model the
stable Python `list.sort(key=lambda x: x[0])`. -/
def insertByFst (x : ℕ × ℚ) : List (ℕ × ℚ) → List (ℕ × ℚ)
  | [] => [x]
  | y :: ys => if y.1 < x.1 then y :: insertByFst x ys else x :: y :: ys

/-- `raw_cuts.sort(key=lambda x: x[0])` (stable sort by frame id). -/
def sortByFst (l : List (ℕ × ℚ)) : List (ℕ × ℚ) := l.foldr insertByFst []

/-- Cut-candidate extraction of one recorded window (`for t_idx in transitions`):
entries `t` with `0 ≤ int(t) < cur_len` become `(f_ids[t], weight)` where the
weight is `center_weights[t]` for a full-length window and the `1.0 / 0.5`
edge-distance fallback otherwise. -/
def cutsOfWindow (cw : List ℚ) (fpw : ℕ) (w : Window) (v : VlmJson) : List (ℕ × ℚ) :=
  v.transitions.filterMap (fun t =>
    if 0 ≤ t ∧ t < (w.frame_ids.length : ℤ) then
      some (w.frame_ids.getD t.toNat 0,
        if w.frame_ids.length = fpw then cw.getD t.toNat 0
        else if 2 < min t.toNat (w.frame_ids.length - 1 - t.toNat) then (1 : ℚ) else mkRat 1 2)
    else none)

/-- `inst = str(instructions[i]).strip(); if inst and inst.lower() != "unknown"`. -/
def validInst (raw : String) : Option String :=
  if pyStrip raw ≠ "" ∧ pyLower (pyStrip raw) ≠ "unknown" then some (pyStrip raw) else none

/-- `boundaries = sorted(list(set([0] + in-range transitions + [cur_len])))`. -/
def windowBoundaries (curLen : ℕ) (transitions : List ℤ) : List ℕ :=
  sortedDedup ([0] ++ transitions.filterMap
    (fun t => if 0 ≤ t ∧ t < (curLen : ℤ) then some t.toNat else none) ++ [curLen])

/-- Instruction-vote extraction of one recorded window: each consecutive
boundary pair `[lo, hi)` with a valid instruction at its index contributes votes
`(f_ids[k], inst)` for `k ∈ [lo, hi)` with `k < cur_len` and `f_ids[k] < nframes`.
The list order reproduces the append order of `instruction_timeline`. -/
def votesOfWindow (nframes : ℕ) (w : Window) (v : VlmJson) : List (ℕ × String) :=
  (List.range ((windowBoundaries w.frame_ids.length v.transitions).length - 1)).flatMap
    (fun i =>
      match v.instructions.get? i with
      | none => []
      | some raw =>
        match validInst raw with
        | none => []
        | some inst =>
          (List.range' ((windowBoundaries w.frame_ids.length v.transitions).getD i 0)
            ((windowBoundaries w.frame_ids.length v.transitions).getD (i + 1) 0 -
              (windowBoundaries w.frame_ids.length v.transitions).getD i 0)).filterMap
            (fun k =>
              if k < w.frame_ids.length ∧ w.frame_ids.getD k 0 < nframes then
                some (w.frame_ids.getD k 0, inst)
              else none))

/-- `for wid, w in enumerate(windows): rec = by_wid.get(wid)` — the windows
paired with their recorded results, in order. -/
def recordedWindowsGo (by_wid : ℕ → Option VlmJson) : ℕ → List Window → List (Window × VlmJson)
  | _, [] => []
  | i, w :: ws =>
    match by_wid i with
    | none => recordedWindowsGo by_wid (i + 1) ws
    | some v => (w, v) :: recordedWindowsGo by_wid (i + 1) ws

def recordedWindows (windows : List Window) (by_wid : ℕ → Option VlmJson) :
    List (Window × VlmJson) :=
  recordedWindowsGo by_wid 0 windows

/-- All raw cut candidates of the sample, in source iteration order. -/
def windowCuts (cw : List ℚ) (fpw : ℕ) (windows : List Window)
    (by_wid : ℕ → Option VlmJson) : List (ℕ × ℚ) :=
  (recordedWindows windows by_wid).flatMap (fun p => cutsOfWindow cw fpw p.1 p.2)

/-- The full `instruction_timeline` contents as an ordered `(frame, vote)` list. -/
def windowVotes (nframes : ℕ) (windows : List Window)
    (by_wid : ℕ → Option VlmJson) : List (ℕ × String) :=
  (recordedWindows windows by_wid).flatMap (fun p => votesOfWindow nframes p.1 p.2)

/-- `instruction_timeline[f]`: the votes recorded for global frame `f`, in append order. -/
def votesAt (votes : List (ℕ × String)) (f : ℕ) : List String :=
  (votes.filter (fun p => p.1 = f)).map Prod.snd

/-- Closing one cluster: `int(np.average(frames, weights))` when the weight sum
exceeds `1e-9`, else `int(np.mean(frames))` (both averages non-negative here,
so `int` is the floor). -/
def closeCluster (frames : List ℕ) (weights : List ℚ) : ℕ :=
  if weights ≠ [] ∧ mkRat 1 1000000000 < weights.sum then
    (⌊((frames.zip weights).map (fun p => (p.1 : ℚ) * p.2)).sum / weights.sum⌋).toNat
  else (⌊(frames.map (fun n => (n : ℚ))).sum / (frames.length : ℚ)⌋).toNat

/-- The clustering loop body: extend the current cluster while the gap to its
last frame is `< cluster_gap`, else close it and start a new one; the final
cluster is closed after the loop. -/
def clusterGo (gap : ℚ) : List (ℕ × ℚ) → List ℕ → List ℚ → List ℕ
  | [], curF, curW => [closeCluster curF curW]
  | (f, w) :: rest, curF, curW =>
    if (f : ℚ) - ((curF.getLastD 0 : ℕ) : ℚ) < gap then
      clusterGo gap rest (curF ++ [f]) (curW ++ [w])
    else closeCluster curF curW :: clusterGo gap rest [f] [w]

/-- Cluster the sorted raw cuts into averaged cut points (`if raw_cuts:` block). -/
def clusterCuts (gap : ℚ) : List (ℕ × ℚ) → List ℕ
  | [] => []
  | (f, w) :: rest => clusterGo gap rest [f] [w]

/-- `min_frames = max(1, int(0.8 * fps))` (fps fallback applied; `0.8·fps ≥ 0`,
so `int` is the floor of the exact ratio `4·fps.num / (5·fps.den)`). -/
def segMinFrames (fps : ℚ) : ℕ :=
  max 1 ((4 * (effFps fps).num) / (5 * ((effFps fps).den : ℤ))).toNat

/-- `cluster_gap = max(1.0, 2.5 * fps)`. -/
def clusterGap (fps : ℚ) : ℚ := max 1 (mkRat 5 2 * effFps fps)

/-- The final cut-point list: `sorted(set([0] + cluster closes + [nframes]))`,
the clusters being formed from the cut candidates stably sorted by frame id. -/
def finalCutPoints (cw : List ℚ) (windows : List Window) (by_wid : ℕ → Option VlmJson)
    (fps : ℚ) (nframes fpw : ℕ) : List ℕ :=
  sortedDedup ([0] ++ clusterCuts (clusterGap fps)
    (sortByFst (windowCuts cw fpw windows by_wid)) ++ [nframes])

/-- `collections.Counter` first-occurrence order of the distinct elements. -/
def firstUniq (l : List String) : List String :=
  l.foldl (fun acc x => if x ∈ acc then acc else acc ++ [x]) []

/-- `Counter(candidates).most_common(1)[0][0]`: the first (in first-occurrence
order) element of maximal multiplicity; `none` on the empty list. -/
def mostCommon (l : List String) : Option String :=
  match firstUniq l with
  | [] => none
  | a :: rest => some (rest.foldl (fun best x => if l.count best < l.count x then x else best) a)

/-- Candidate votes for the interval `[s, e)`: votes on the 20%-trimmed core
`[mid_s, mid_e]` (`margin = int((e-s)*0.2) = (e-s)/5`), falling back to the
full interval when the core has none. -/
def candidatesFor (votes : List (ℕ × String)) (nframes s e : ℕ) : List String :=
  if ((List.range' (s + (e - s) / 5) (e - (e - s) / 5 + 1 - (s + (e - s) / 5))).flatMap
      (fun f => if f < nframes then votesAt votes f else [])) = [] then
    (List.range' s (e - s)).flatMap (fun f => if f < nframes then votesAt votes f else [])
  else
    (List.range' (s + (e - s) / 5) (e - (e - s) / 5 + 1 - (s + (e - s) / 5))).flatMap
      (fun f => if f < nframes then votesAt votes f else [])

/-- The segment-assembly loop over consecutive final cut points, carrying the
dense `seg_id` counter: drop intervals shorter than `min_frames`, label the
rest by the most common candidate vote, drop them when no vote exists. -/
def segsGo (votes : List (ℕ × String)) (minF nframes : ℕ) : List ℕ → ℕ → List Seg
  | s :: e :: rest, sid =>
    if e - s < minF then segsGo votes minF nframes (e :: rest) sid
    else
      match mostCommon (candidatesFor votes nframes s e) with
      | none => segsGo votes minF nframes (e :: rest) sid
      | some inst => ⟨sid, s, e, inst, 1⟩ :: segsGo votes minF nframes (e :: rest) (sid + 1)
  | _, _ => []

/-- `build_segments_via_cuts(sample_id, windows, by_wid, fps, nframes)`.
`none` models the bare `{}` returned when `nframes == 0`; otherwise the
`{sample_id, nframes, segments}` artifact.  `cw` is the hanning-interior
weight table `np.hanning(frames_per_window + 2)[1:-1]` (see header note). -/
def build_segments_via_cuts (cw : List ℚ) (sample_id : String) (windows : List Window)
    (by_wid : ℕ → Option VlmJson) (fps : ℚ) (nframes fpw : ℕ) : Option SegArtifact :=
  if nframes = 0 then none
  else some ⟨sample_id, nframes,
    segsGo (windowVotes nframes windows by_wid) (segMinFrames fps) nframes
      (finalCutPoints cw windows by_wid fps nframes fpw) 0⟩

/- ===== Job dispatcher (get_job / submit_result / timeout sweep / producer loop) =====
   Jobs are identified by their `task_id` (modelled as ℕ); `pending` is the FIFO
   `job_queue`, `inflight` maps task ids to dispatch timestamps, `retry` is
   `retry_counts` (defaulting to 0).  Each lock-protected source operation is one
   atomic step of the transition system `DStep`. -/

/-- Dispatcher configuration: `MAX_QUEUE`, `MAX_RETRIES_PER_JOB`, `INFLIGHT_TIMEOUT_SEC`. -/
structure DispCfg where
  maxQueue : ℕ
  maxRetries : ℕ
  timeout : ℕ
deriving DecidableEq, Repr

/-- Dispatcher state: `job_queue`, `inflight` (task id, dispatch time), `retry_counts`. -/
structure DispState where
  pending : List ℕ
  inflight : List (ℕ × ℕ)
  retry : ℕ → ℕ

/-- The initial dispatcher state (empty queue, nothing inflight, no retries). -/
def initDisp : DispState := ⟨[], [], fun _ => 0⟩

/-- One producer pass appending freshly created jobs (`job_queue.append(job)`). -/
def enqueueNewJobs (s : DispState) (newJobs : List ℕ) : DispState :=
  { s with pending := s.pending ++ newJobs }

/-- `/get_job`: pop the queue head and stamp an InflightRecord with the current
time (`inflight[task_id] = {"ts": now, "job": job}` — dict assignment). -/
def getJobStep (s : DispState) (now : ℕ) : DispState :=
  match s.pending with
  | [] => s
  | j :: rest =>
    { pending := rest, inflight := (j, now) :: s.inflight.filter (fun p => p.1 ≠ j),
      retry := s.retry }

/-- The dispatch timestamp recorded for `tid`, when inflight. -/
def inflightTs (s : DispState) (tid : ℕ) : Option ℕ :=
  (s.inflight.find? (fun p => p.1 = tid)).map Prod.snd

/-- `/submit_result`: pop the InflightRecord when present; on an empty
`vlm_json`, increment the retry counter and re-enqueue the job at the queue
head (`job_queue.insert(0, job)`) unless the new count exceeds `max_retries`.
A well-formed result only removes the record (persistence is modelled separately). -/
def submitResultStep (cfg : DispCfg) (s : DispState) (tid : ℕ) (emptyJson : Bool) : DispState :=
  if (inflightTs s tid).isSome then
    if emptyJson then
      if s.retry tid + 1 ≤ cfg.maxRetries then
        { pending := tid :: s.pending, inflight := s.inflight.filter (fun p => p.1 ≠ tid),
          retry := fun t => if t = tid then s.retry tid + 1 else s.retry t }
      else
        { pending := s.pending, inflight := s.inflight.filter (fun p => p.1 ≠ tid),
          retry := fun t => if t = tid then s.retry tid + 1 else s.retry t }
    else { s with inflight := s.inflight.filter (fun p => p.1 ≠ tid) }
  else s

/-- The producer's timeout sweep, for one expired record: when `now - ts >
inflight_timeout_sec`, pop the record, increment the retry counter and
re-enqueue at the tail (`job_queue.append(job)`) unless the new count exceeds
`max_retries`.  The source sweeps all expired records inside one lock section;
as none of the moves affects another record's expiry, that equals a sequence of
these single-record steps. -/
def sweepOneStep (cfg : DispCfg) (s : DispState) (tid now : ℕ) : DispState :=
  match inflightTs s tid with
  | none => s
  | some ts =>
    if ts + cfg.timeout < now then
      if s.retry tid + 1 ≤ cfg.maxRetries then
        { pending := s.pending ++ [tid], inflight := s.inflight.filter (fun p => p.1 ≠ tid),
          retry := fun t => if t = tid then s.retry tid + 1 else s.retry t }
      else
        { pending := s.pending, inflight := s.inflight.filter (fun p => p.1 ≠ tid),
          retry := fun t => if t = tid then s.retry tid + 1 else s.retry t }
    else s

/-- Atomic dispatcher steps.  `produce` reflects the producer pass of
`producer_loop`: it runs only when `len(job_queue) < MAX_QUEUE`, creates at
most 21 jobs per pass (`if cnt > 20: break`) for windows with distinct ids,
skipping any task id already pending or inflight (`active` check). -/
inductive DStep (cfg : DispCfg) : DispState → DispState → Prop
  | produce (s : DispState) (newJobs : List ℕ)
      (hq : s.pending.length < cfg.maxQueue)
      (hcnt : newJobs.length ≤ 21)
      (hnd : newJobs.Nodup)
      (hfresh : ∀ t ∈ newJobs, t ∉ s.pending ∧ ∀ p ∈ s.inflight, p.1 ≠ t) :
      DStep cfg s (enqueueNewJobs s newJobs)
  | get (s : DispState) (now : ℕ) : DStep cfg s (getJobStep s now)
  | submit (s : DispState) (tid : ℕ) (emptyJson : Bool) :
      DStep cfg s (submitResultStep cfg s tid emptyJson)
  | sweep (s : DispState) (tid now : ℕ) : DStep cfg s (sweepOneStep cfg s tid now)

/-- States reachable from the initial dispatcher state. -/
def DReachable (cfg : DispCfg) (s : DispState) : Prop :=
  Relation.ReflTransGen (DStep cfg) initDisp s

/-- Configuration for the C7 counterexample: MAX_RETRIES_PER_JOB = 0. -/
def c7Cfg : DispCfg := ⟨8, 0, 100⟩

/-- Trace: produce job 5, hand it out, fail it with an empty result (counter
becomes 1 > 0, the job is dropped by submit_result), then a later producer
pass re-creates the job for the still-unrecorded window — its task id is in
neither the queue nor the inflight map, and the producer never consults
`retry_counts`. -/
def c7State : DispState :=
  enqueueNewJobs
    (submitResultStep c7Cfg (getJobStep (enqueueNewJobs initDisp [5]) 10) 5 true) [5]

/- ===== Finalize step of producer_loop (Step B) =====
   `final_res = build_segments_via_cuts(...)` is written to `segments.json`
   (overwrite), `already_done = os.path.exists(done_path)` is sampled, the
   `.DONE` marker is (re)created, and `global_done` is incremented only when the
   marker did not already exist. -/

/-- Persisted per-sample finalize state: the `segments.json` contents, the
`.DONE` marker, and the global done counter. -/
structure FinalizeState where
  segmentsFile : Option SegArtifact
  doneMarker : Bool
  globalDone : ℕ
deriving DecidableEq, Repr

/-- One execution of the finalize block for a sample whose inputs produce
`build_segments_via_cuts cw sid windows by_wid fps nframes fpw`. -/
def finalizeSample (cw : List ℚ) (sid : String) (windows : List Window)
    (by_wid : ℕ → Option VlmJson) (fps : ℚ) (nframes fpw : ℕ)
    (st : FinalizeState) : FinalizeState :=
  { segmentsFile := build_segments_via_cuts cw sid windows by_wid fps nframes fpw,
    doneMarker := true,
    globalDone := st.globalDone + (if st.doneMarker then 0 else 1) }

/-- The spec's description of frame sampling, literally: linearly spaced
positions over `[s, e]`, **rounded to the nearest integer** (`round` rounds half
up; Python's half-to-even agrees with it on the inputs used below), then
clipped to `[0, frame_count-1]`. -/
def specRoundFrame (nframes fpw s e k : ℕ) : ℤ :=
  max 0 (min ((nframes : ℤ) - 1)
    (round ((s : ℚ) + (k : ℚ) * ((e : ℚ) - (s : ℚ)) / ((fpw : ℚ) - 1))))

/- ===== Helper lemmas: window planner ===== -/

theorem getFrames_length (nframes fpw s e : ℕ) : (getFrames nframes fpw s e).length = fpw := by
  simp [getFrames]

theorem getFrames_le (nframes fpw s e : ℕ) :
    ∀ x ∈ getFrames nframes fpw s e, x ≤ nframes - 1 := by
  intro x hx
  simp only [getFrames, List.mem_map] at hx
  obtain ⟨k, -, rfl⟩ := hx
  exact min_le_left _ _

theorem linNat_mono (s e num : ℕ) {k k' : ℕ} (hk : k ≤ k') :
    linNat s e num k ≤ linNat s e num k' := by
  unfold linNat
  split
  · exact le_rfl
  · exact Nat.div_le_div_right (by
      have := Nat.mul_le_mul_right (e - s) hk
      omega)

theorem getFrames_sorted (nframes fpw s e : ℕ) :
    (getFrames nframes fpw s e).Sorted (· ≤ ·) := by
  unfold getFrames List.Sorted
  rw [List.pairwise_map]
  exact (List.pairwise_lt_range fpw).imp
    (fun h => min_le_min le_rfl (linNat_mono s e fpw (Nat.le_of_lt h)))

theorem mem_buildWindowsAux (nframes winLen step fpw : ℕ) (hwl : 1 ≤ winLen) :
    ∀ fuel s wid w, w ∈ buildWindowsAux nframes winLen step fpw fuel s wid →
      w.start_frame < nframes ∧
      w.end_frame = min (nframes - 1) (w.start_frame + winLen - 1) ∧
      w.frame_ids = getFrames nframes fpw w.start_frame w.end_frame := by
  intro fuel
  induction fuel with
  | zero => intro s wid w h; simp [buildWindowsAux] at h
  | succ n ih =>
    intro s wid w h
    rw [buildWindowsAux] at h
    by_cases hs : s < nframes
    · rw [if_pos hs] at h
      by_cases hshort : min (nframes - 1) (s + winLen - 1) - s < winLen / 2 ∧ 0 < wid
      · rw [if_pos hshort] at h; simp at h
      · rw [if_neg hshort] at h
        rcases List.mem_cons.mp h with rfl | h2
        · exact ⟨hs, rfl, rfl⟩
        · exact ih _ _ _ h2
    · rw [if_neg hs] at h; simp at h

theorem mem_build_windows_spans (fps window_sec step_sec : ℚ) (nframes fpw : ℕ) :
    ∀ w ∈ build_windows fps nframes window_sec step_sec fpw,
      w.start_frame < nframes ∧ w.start_frame ≤ w.end_frame ∧
      w.frame_ids = getFrames nframes fpw w.start_frame w.end_frame := by
  intro w hw
  obtain ⟨h1, h2, h3⟩ := mem_buildWindowsAux nframes (secToFrames window_sec fps)
    (secToFrames step_sec fps) fpw (le_max_left 1 _) _ _ _ _ hw
  refine ⟨h1, ?_, h3⟩
  have hwl : 1 ≤ secToFrames window_sec fps := le_max_left 1 _
  omega

/-- C2: for all fps > 0, frame_count ≥ 1, window_sec, step_sec > 0,
frames_per_window > 0, every Window produced by build_windows has a frame_ids
list of length exactly frames_per_window, monotonically non-decreasing, with
every element within [0, frame_count-1]. -/
theorem build_windows_frame_ids_valid (fps window_sec step_sec : ℚ) (nframes fpw : ℕ)
    (hfps : 0 < fps) (hn : 1 ≤ nframes) (hws : 0 < window_sec) (hss : 0 < step_sec)
    (hfpw : 0 < fpw) :
    ∀ w ∈ build_windows fps nframes window_sec step_sec fpw,
      w.frame_ids.length = fpw ∧ w.frame_ids.Sorted (· ≤ ·) ∧
      ∀ x ∈ w.frame_ids, x ≤ nframes - 1 := by
  intro w hw
  obtain ⟨-, -, h3⟩ := mem_build_windows_spans fps window_sec step_sec nframes fpw w hw
  rw [h3]
  exact ⟨getFrames_length _ _ _ _, getFrames_sorted _ _ _ _, getFrames_le _ _ _ _⟩

/-- C2 witness: the theorem applied at fps=30, frame_count=300, window_sec=16,
step_sec=8, frames_per_window=16. -/
theorem build_windows_frame_ids_valid_witness :
    ((0 : ℚ) < 30 ∧ 1 ≤ 300 ∧ (0 : ℚ) < 16 ∧ (0 : ℚ) < 8 ∧ 0 < 16) ∧
    ∀ w ∈ build_windows 30 300 16 8 16,
      w.frame_ids.length = 16 ∧ w.frame_ids.Sorted (· ≤ ·) ∧
      ∀ x ∈ w.frame_ids, x ≤ 300 - 1 :=
  ⟨⟨by decide, by decide, by decide, by decide, by decide⟩,
   build_windows_frame_ids_valid 30 16 8 300 16 (by decide) (by decide) (by decide)
     (by decide) (by decide)⟩

/-- C8: with fps=30, frame_count=300, window_sec=16, step_sec=8 the plan is
win_len=480, step=240 and exactly one window Window(0, 0, 299, …) is produced:
the first window is kept although shorter than win_len, and the would-be second
window starting at frame 240 (spanning 60 < 240 = win_len/2 frames, wid > 0)
is dropped. -/
theorem build_windows_example_one_window :
    secToFrames 16 30 = 480 ∧ secToFrames 8 30 = 240 ∧
    build_windows 30 300 16 8 16 =
      [⟨0, 0, 299, [0, 19, 39, 59, 79, 99, 119, 139, 159, 179, 199, 219, 239, 259, 279, 299]⟩] := by
  exact ⟨by decide, by decide, by decide⟩

theorem linNat_eq_floor (s e num k : ℕ) (hse : s ≤ e) (h2 : 2 ≤ num) :
    (linNat s e num k : ℤ) =
      ⌊(s : ℚ) + (k : ℚ) * ((e : ℚ) - (s : ℚ)) / ((num : ℚ) - 1)⌋ := by
  have hnum : ¬ num ≤ 1 := by omega
  have hd2 : (2 : ℚ) ≤ (num : ℚ) := by exact_mod_cast h2
  have hdne : ((num : ℚ) - 1) ≠ 0 := by linarith
  have key : (s : ℚ) + (k : ℚ) * ((e : ℚ) - (s : ℚ)) / ((num : ℚ) - 1)
      = ((s * (num - 1) + k * (e - s) : ℕ) : ℚ) / ((num - 1 : ℕ) : ℚ) := by
    push_cast [Nat.cast_sub (by omega : 1 ≤ num), Nat.cast_sub hse]
    field_simp
  rw [linNat, if_neg hnum, key, Rat.floor_natCast_div_natCast]
  exact (Int.natCast_div _ _).symm

/-- C9 amended: the k-th sampled frame id of every emitted window equals the
k-th of frames_per_window linearly spaced positions over [s, e] inclusive,
**truncated** (floored) to an integer — not rounded to the nearest one — and
clipped to [0, frame_count-1]. -/
theorem build_windows_frame_formula_floor (fps window_sec step_sec : ℚ) (nframes fpw : ℕ)
    (hfpw : 2 ≤ fpw) :
    ∀ w ∈ build_windows fps nframes window_sec step_sec fpw, ∀ k < fpw,
      (w.frame_ids.getD k 0 : ℤ) =
        max 0 (min ((nframes : ℤ) - 1)
          ⌊(w.start_frame : ℚ) + (k : ℚ) *
            ((w.end_frame : ℚ) - (w.start_frame : ℚ)) / ((fpw : ℚ) - 1)⌋) := by
  intro w hw k hk
  obtain ⟨-, hse, h3⟩ := mem_build_windows_spans fps window_sec step_sec nframes fpw w hw
  rw [h3]
  have hget : (getFrames nframes fpw w.start_frame w.end_frame).getD k 0 =
      min (nframes - 1) (linNat w.start_frame w.end_frame fpw k) := by
    unfold getFrames
    rw [List.getD_eq_getElem?_getD, List.getElem?_map, List.getElem?_range hk]
    rfl
  rw [hget, ← linNat_eq_floor w.start_frame w.end_frame fpw k hse hfpw]
  omega

/-- C9 amended witness: the formula theorem applied to the default
configuration fps=30, frame_count=300, window_sec=16, step_sec=8,
frames_per_window=16. -/
theorem build_windows_frame_formula_floor_witness :
    2 ≤ 16 ∧
    ∀ w ∈ build_windows 30 300 16 8 16, ∀ k < 16,
      (w.frame_ids.getD k 0 : ℤ) =
        max 0 (min ((300 : ℤ) - 1)
          ⌊(w.start_frame : ℚ) + (k : ℚ) *
            ((w.end_frame : ℚ) - (w.start_frame : ℚ)) / ((16 : ℚ) - 1)⌋) :=
  ⟨by decide, build_windows_frame_formula_floor 30 16 8 300 16 (by decide)⟩

/-- C9 counterexample: with fps=1, frame_count=4, window_sec=step_sec=4,
frames_per_window=3 the single window spans [0,3]; `np.linspace(0,3,3) =
[0, 1.5, 3]` and `astype(int)` truncates 1.5 to 1, while the claimed rounding
gives 2 (`round(1.5) = 2` both for Mathlib's `round` and Python's
half-to-even `round`), so frame_ids[1] = 1 ≠ 2. -/
theorem frame_sampling_truncates_not_rounds :
    build_windows 1 4 4 4 3 = [⟨0, 0, 3, [0, 1, 3]⟩] ∧
    specRoundFrame 4 3 0 3 1 = 2 ∧ (1 : ℤ) ≠ 2 := by
  refine ⟨by decide, ?_, by decide⟩
  unfold specRoundFrame
  norm_num [round_eq]

/-- C10: with frame_count = 0, build_segments_via_cuts returns the bare `{}`
(modelled `none`) instead of the documented artifact shape; for every
frame_count ≥ 1 it returns the three-field `{sample_id, nframes, segments}`
artifact. -/
theorem build_segments_empty_and_shape (cw : List ℚ) (sid : String) (windows : List Window)
    (by_wid : ℕ → Option VlmJson) (fps : ℚ) (nframes fpw : ℕ) :
    build_segments_via_cuts cw sid windows by_wid fps 0 fpw = none ∧
    (1 ≤ nframes → ∃ segs,
      build_segments_via_cuts cw sid windows by_wid fps nframes fpw =
        some ⟨sid, nframes, segs⟩) := by
  constructor
  · rfl
  · intro h
    exact ⟨_, by rw [build_segments_via_cuts, if_neg (by omega)]⟩

/-- C10 witness: the shape theorem applied at frame_count = 7. -/
theorem build_segments_empty_and_shape_witness :
    1 ≤ 7 ∧ ∃ segs,
      build_segments_via_cuts [] "a" [] (fun _ => none) 30 7 16 = some ⟨"a", 7, segs⟩ :=
  ⟨by decide,
   (build_segments_empty_and_shape [] "a" [] (fun _ => none) 30 7 16).2 (by decide)⟩

/-- C5: build_segments_via_cuts is a pure function of its inputs (identical
inputs give identical artifacts), and re-running the finalize block leaves the
persisted artifact unchanged and does not increment the global done counter a
second time (the marker is already present). -/
theorem finalize_deterministic_idempotent (cw : List ℚ) (sid : String) (windows : List Window)
    (by_wid : ℕ → Option VlmJson) (fps : ℚ) (nframes fpw : ℕ) (st : FinalizeState) :
    (finalizeSample cw sid windows by_wid fps nframes fpw st).segmentsFile =
      build_segments_via_cuts cw sid windows by_wid fps nframes fpw ∧
    (finalizeSample cw sid windows by_wid fps nframes fpw
        (finalizeSample cw sid windows by_wid fps nframes fpw st)).segmentsFile =
      (finalizeSample cw sid windows by_wid fps nframes fpw st).segmentsFile ∧
    (finalizeSample cw sid windows by_wid fps nframes fpw
        (finalizeSample cw sid windows by_wid fps nframes fpw st)).globalDone =
      (finalizeSample cw sid windows by_wid fps nframes fpw st).globalDone := by
  refine ⟨rfl, rfl, ?_⟩
  simp [finalizeSample]

/- ===== Dispatcher claims ===== -/

/-- The configuration used by the C1 counterexample: MAX_QUEUE = 1. -/
def c1Cfg : DispCfg := ⟨1, 5, 300⟩

/-- The state reached after one producer pass that appends two jobs. -/
def c1State : DispState := ⟨[7, 8], [], fun _ => 0⟩

/-- C1 counterexample: with MAX_QUEUE = 1, one producer pass starting from the
empty queue (so `len(job_queue) < MAX_QUEUE` holds at its start) appends two
jobs without re-checking the bound — reaching a state with
`len(job_queue) = 2 > MAX_QUEUE`, so `len(job_queue) ≤ max_queue` is not an
invariant. -/
theorem queue_exceeds_max_queue :
    DReachable c1Cfg c1State ∧ ¬ (c1State.pending.length ≤ c1Cfg.maxQueue) := by
  constructor
  · exact Relation.ReflTransGen.single
      (DStep.produce initDisp [7, 8] (by decide) (by decide) (by decide) (by decide))
  · decide

/-- C1 amended: the producer begins a pass only while `len(job_queue) <
max_queue`, and one pass appends at most 21 jobs, so immediately after a
producer pass `len(job_queue) ≤ max_queue + 20`; moreover once the queue is at
or above max_queue no produce step is possible, and every other dispatcher
step grows the queue by at most one. -/
theorem producer_pass_queue_bound (cfg : DispCfg) (s : DispState) (newJobs : List ℕ)
    (hq : s.pending.length < cfg.maxQueue) (hcnt : newJobs.length ≤ 21) :
    (enqueueNewJobs s newJobs).pending.length ≤ cfg.maxQueue + 20 ∧
    (∀ s' s₂ : DispState, cfg.maxQueue ≤ s'.pending.length → DStep cfg s' s₂ →
      s₂.pending.length ≤ s'.pending.length + 1) := by
  constructor
  · simp only [enqueueNewJobs, List.length_append]
    omega
  · intro s' s₂ hfull hstep
    cases hstep with
    | produce _ hq' _ _ => omega
    | get now =>
      unfold getJobStep
      cases hp : s'.pending with
      | nil => simp [hp]
      | cons j rest => simp [hp]; omega
    | submit tid emptyJson =>
      unfold submitResultStep
      split
      · split
        · split <;> simp
        · simp
      · omega
    | sweep tid now =>
      unfold sweepOneStep
      cases hts : inflightTs s' tid with
      | none => dsimp only; omega
      | some ts =>
        simp only
        split
        · split <;> simp
        · omega

/-- C1 amended witness: a pass from the empty queue with 3 new jobs under
MAX_QUEUE = 32 stays within 32 + 20. -/
theorem producer_pass_queue_bound_witness :
    (initDisp.pending.length < 32 ∧ ([1, 2, 3] : List ℕ).length ≤ 21) ∧
    (enqueueNewJobs initDisp [1, 2, 3]).pending.length ≤ 32 + 20 :=
  ⟨⟨by decide, by decide⟩,
   (producer_pass_queue_bound ⟨32, 5, 300⟩ initDisp [1, 2, 3] (by decide) (by decide)).1⟩

/-- C7 amended: on an empty result for an inflight task the record is removed,
the counter incremented, and the job is re-enqueued at the **head** iff the new
count ≤ max_retries; on an inflight timeout likewise with re-enqueue at the
**tail**; retry counters never decrease under any dispatcher step, and once the
counter has passed max_retries neither of these two paths ever re-enqueues the
job (the producer loop, however, may re-create an identical job for the window
— see the counterexample). -/
theorem retry_paths_behavior (cfg : DispCfg) (s : DispState) (tid ts now : ℕ)
    (hin : inflightTs s tid = some ts) :
    ((submitResultStep cfg s tid true).retry tid = s.retry tid + 1 ∧
     inflightTs (submitResultStep cfg s tid true) tid = none ∧
     (s.retry tid + 1 ≤ cfg.maxRetries →
       (submitResultStep cfg s tid true).pending = tid :: s.pending) ∧
     (cfg.maxRetries < s.retry tid + 1 →
       (submitResultStep cfg s tid true).pending = s.pending)) ∧
    (ts + cfg.timeout < now →
      ((sweepOneStep cfg s tid now).retry tid = s.retry tid + 1 ∧
       inflightTs (sweepOneStep cfg s tid now) tid = none ∧
       (s.retry tid + 1 ≤ cfg.maxRetries →
         (sweepOneStep cfg s tid now).pending = s.pending ++ [tid]) ∧
       (cfg.maxRetries < s.retry tid + 1 →
         (sweepOneStep cfg s tid now).pending = s.pending))) ∧
    (∀ s₂ : DispState, DStep cfg s s₂ → s.retry tid ≤ s₂.retry tid) := by
  refine ⟨?_, ?_, ?_⟩
  · unfold submitResultStep
    rw [if_pos (by simp [hin]), if_pos rfl]
    constructor
    · split <;> simp
    · constructor
      · split <;> simp [inflightTs, List.find?_filter]
      · constructor
        · intro h; rw [if_pos h]
        · intro h; rw [if_neg (by omega)]
  · intro hexp
    unfold sweepOneStep
    rw [hin]
    simp only [if_pos hexp]
    constructor
    · split <;> simp
    · constructor
      · split <;> simp [inflightTs, List.find?_filter]
      · constructor
        · intro h; rw [if_pos h]
        · intro h; rw [if_neg (by omega)]
  · intro s₂ hstep
    cases hstep with
    | produce _ _ _ _ => exact le_rfl
    | get now' =>
      unfold getJobStep
      cases s.pending with
      | nil => exact le_rfl
      | cons j rest => exact le_rfl
    | submit tid' emptyJson =>
      unfold submitResultStep
      split
      · split
        · split
          all_goals
            dsimp only
            by_cases htid : tid = tid' <;> simp [htid]
        · exact le_rfl
      · exact le_rfl
    | sweep tid' now' =>
      unfold sweepOneStep
      cases inflightTs s tid' with
      | none => exact le_rfl
      | some ts' =>
        dsimp only
        split
        · split
          all_goals
            dsimp only
            by_cases htid : tid = tid' <;> simp [htid]
        · exact le_rfl

/-- C7 amended witness: the theorem applied to a state with task 3 inflight
since time 10, max_retries = 2, at time 200. -/
theorem retry_paths_behavior_witness :
    inflightTs ⟨[], [(3, 10)], fun _ => 0⟩ 3 = some 10 ∧
    ((submitResultStep ⟨8, 2, 100⟩ ⟨[], [(3, 10)], fun _ => 0⟩ 3 true).retry 3 =
        (fun _ => (0 : ℕ)) 3 + 1 ∧
      inflightTs (submitResultStep ⟨8, 2, 100⟩ ⟨[], [(3, 10)], fun _ => 0⟩ 3 true) 3 = none ∧
      ((fun _ => (0 : ℕ)) 3 + 1 ≤ 2 →
        (submitResultStep ⟨8, 2, 100⟩ ⟨[], [(3, 10)], fun _ => 0⟩ 3 true).pending = 3 :: []) ∧
      (2 < (fun _ => (0 : ℕ)) 3 + 1 →
        (submitResultStep ⟨8, 2, 100⟩ ⟨[], [(3, 10)], fun _ => 0⟩ 3 true).pending = [])) ∧
    (10 + 100 < 200 →
      ((sweepOneStep ⟨8, 2, 100⟩ ⟨[], [(3, 10)], fun _ => 0⟩ 3 200).retry 3 =
          (fun _ => (0 : ℕ)) 3 + 1 ∧
        inflightTs (sweepOneStep ⟨8, 2, 100⟩ ⟨[], [(3, 10)], fun _ => 0⟩ 3 200) 3 = none ∧
        ((fun _ => (0 : ℕ)) 3 + 1 ≤ 2 →
          (sweepOneStep ⟨8, 2, 100⟩ ⟨[], [(3, 10)], fun _ => 0⟩ 3 200).pending = [] ++ [3]) ∧
        (2 < (fun _ => (0 : ℕ)) 3 + 1 →
          (sweepOneStep ⟨8, 2, 100⟩ ⟨[], [(3, 10)], fun _ => 0⟩ 3 200).pending = []))) ∧
    (∀ s₂ : DispState, DStep ⟨8, 2, 100⟩ ⟨[], [(3, 10)], fun _ => 0⟩ s₂ →
      (fun _ => (0 : ℕ)) 3 ≤ s₂.retry 3) :=
  ⟨by decide, retry_paths_behavior ⟨8, 2, 100⟩ ⟨[], [(3, 10)], fun _ => 0⟩ 3 10 200 (by decide)⟩

theorem mem_map_fst_of_inflightTs_isSome {s : DispState} {tid : ℕ}
    (h : (inflightTs s tid).isSome) : tid ∈ s.inflight.map Prod.fst := by
  unfold inflightTs at h
  cases hf : s.inflight.find? (fun p => p.1 = tid) with
  | none => rw [hf] at h; simp at h
  | some p =>
    have hp1 : p.1 = tid := by simpa using List.find?_some hf
    exact hp1 ▸ List.mem_map_of_mem Prod.fst (List.mem_of_find?_eq_some hf)

theorem map_fst_filter_ne (l : List (ℕ × ℕ)) (tid : ℕ) :
    (l.filter (fun p => p.1 ≠ tid)).map Prod.fst =
      (l.map Prod.fst).filter (fun x => x ≠ tid) := by
  rw [List.filter_map]
  rfl

theorem dispInv_step {cfg : DispCfg} {s s₂ : DispState} (hstep : DStep cfg s s₂)
    (hinv : (s.pending ++ s.inflight.map Prod.fst).Nodup) :
    (s₂.pending ++ s₂.inflight.map Prod.fst).Nodup := by
  cases hstep with
  | produce newJobs hq hcnt hnd hfresh =>
    have hperm : List.Perm ((s.pending ++ newJobs) ++ s.inflight.map Prod.fst)
        ((s.pending ++ s.inflight.map Prod.fst) ++ newJobs) := by
      rw [List.append_assoc, List.append_assoc]
      exact List.Perm.append_left _ List.perm_append_comm
    refine hperm.nodup_iff.mpr (List.Nodup.append hinv hnd ?_)
    intro a ha hb
    obtain ⟨hap, hai⟩ := hfresh a hb
    rcases List.mem_append.mp ha with h | h
    · exact hap h
    · obtain ⟨p, hp, rfl⟩ := List.mem_map.mp h
      exact hai p hp rfl
  | get now =>
    unfold getJobStep
    cases hp : s.pending with
    | nil => exact hinv
    | cons j rest =>
      rw [hp] at hinv
      rw [List.cons_append] at hinv
      have hj : j ∉ rest ++ s.inflight.map Prod.fst := (List.nodup_cons.mp hinv).1
      have hfe : s.inflight.filter (fun p => p.1 ≠ j) = s.inflight := by
        refine List.filter_eq_self.mpr ?_
        intro p hp'
        simp only [ne_eq, decide_eq_true_eq]
        intro hc
        exact hj (List.mem_append_right _ (hc ▸ List.mem_map_of_mem Prod.fst hp'))
      show (rest ++ ((j, now) :: s.inflight.filter (fun p => p.1 ≠ j)).map Prod.fst).Nodup
      rw [hfe, List.map_cons]
      exact (List.perm_middle.nodup_iff).mpr hinv
  | submit tid emptyJson =>
    unfold submitResultStep
    split
    · have htid : tid ∈ s.inflight.map Prod.fst :=
        mem_map_fst_of_inflightTs_isSome (by assumption)
      have hsub : (s.pending ++ (s.inflight.filter (fun p => p.1 ≠ tid)).map Prod.fst).Nodup := by
        refine List.Nodup.sublist ?_ hinv
        exact (((List.filter_sublist _).map Prod.fst).append_left s.pending)
      have htid_notp : tid ∉ s.pending := by
        rcases List.nodup_append.mp hinv with ⟨-, -, hdisj⟩
        intro hc
        exact hdisj hc htid
      have htid_notf : tid ∉ (s.inflight.filter (fun p => p.1 ≠ tid)).map Prod.fst := by
        rw [map_fst_filter_ne]
        intro hc
        simpa using (List.mem_filter.mp hc).2
      split
      · split
        · show ((tid :: s.pending) ++ _).Nodup
          rw [List.cons_append]
          exact List.nodup_cons.mpr
            ⟨fun hc => (List.mem_append.mp hc).elim htid_notp htid_notf, hsub⟩
        · exact hsub
      · exact hsub
    · exact hinv
  | sweep tid now =>
    unfold sweepOneStep
    cases hts : inflightTs s tid with
    | none => exact hinv
    | some ts =>
      have htid : tid ∈ s.inflight.map Prod.fst :=
        mem_map_fst_of_inflightTs_isSome (by rw [hts]; rfl)
      have hsub : (s.pending ++ (s.inflight.filter (fun p => p.1 ≠ tid)).map Prod.fst).Nodup := by
        refine List.Nodup.sublist ?_ hinv
        exact (((List.filter_sublist _).map Prod.fst).append_left s.pending)
      have htid_notp : tid ∉ s.pending := by
        rcases List.nodup_append.mp hinv with ⟨-, -, hdisj⟩
        intro hc
        exact hdisj hc htid
      have htid_notf : tid ∉ (s.inflight.filter (fun p => p.1 ≠ tid)).map Prod.fst := by
        rw [map_fst_filter_ne]
        intro hc
        simpa using (List.mem_filter.mp hc).2
      dsimp only
      split
      · split
        · show ((s.pending ++ [tid]) ++ _).Nodup
          have hperm : List.Perm
              ((s.pending ++ [tid]) ++ (s.inflight.filter (fun p => p.1 ≠ tid)).map Prod.fst)
              (tid :: (s.pending ++ (s.inflight.filter (fun p => p.1 ≠ tid)).map Prod.fst)) := by
            rw [List.append_assoc, List.singleton_append]
            exact List.perm_middle
          refine hperm.nodup_iff.mpr (List.nodup_cons.mpr
            ⟨fun hc => (List.mem_append.mp hc).elim htid_notp htid_notf, hsub⟩)
        · exact hsub
      · exact hinv

/-- C6: along every sequence of dispatcher operations (producer pass, get_job,
submit_result, timeout sweep) the task ids in the pending queue together with
the inflight keys stay pairwise distinct: at most one InflightRecord exists per
task_id at any instant, no task id is queued twice, and no task id is
simultaneously pending and inflight — the producer enqueues a job only after
its `active` check finds the id in neither place. -/
theorem dispatcher_unique_inflight_per_task (cfg : DispCfg) (s : DispState)
    (h : DReachable cfg s) : (s.pending ++ s.inflight.map Prod.fst).Nodup := by
  unfold DReachable at h
  induction h with
  | refl => decide
  | tail hsteps hstep ih => exact dispInv_step hstep ih

/-- C6 witness state: produce job 5 then hand it out at time 100. -/
def c6State : DispState := getJobStep (enqueueNewJobs initDisp [5]) 100

/-- C6 witness: the invariant at a concrete reachable state with one inflight
record. -/
theorem dispatcher_unique_inflight_per_task_witness :
    (c6State.pending ++ c6State.inflight.map Prod.fst).Nodup :=
  dispatcher_unique_inflight_per_task ⟨32, 5, 300⟩ c6State
    ((Relation.ReflTransGen.single
      (DStep.produce initDisp [5] (by decide) (by decide) (by decide) (by decide))).tail
      (DStep.get (enqueueNewJobs initDisp [5]) 100))

/-- C7 counterexample: after a job is permanently abandoned (its retry counter
exceeds max_retries = 0), the system still reaches a state whose pending queue
contains that job again: the producer pass re-creates it, because the window
has no recorded result and the producer checks only queue/inflight membership,
never `retry_counts`.  So "the job is never re-enqueued again" fails for the
system as a whole. -/
theorem abandoned_job_reproduced :
    DReachable c7Cfg c7State ∧ c7Cfg.maxRetries < c7State.retry 5 ∧ 5 ∈ c7State.pending := by
  refine ⟨?_, by decide, by decide⟩
  have h1 : DStep c7Cfg initDisp (enqueueNewJobs initDisp [5]) :=
    DStep.produce initDisp [5] (by decide) (by decide) (by decide) (by decide)
  have h2 : DStep c7Cfg (enqueueNewJobs initDisp [5])
      (getJobStep (enqueueNewJobs initDisp [5]) 10) :=
    DStep.get (enqueueNewJobs initDisp [5]) 10
  have h3 : DStep c7Cfg (getJobStep (enqueueNewJobs initDisp [5]) 10)
      (submitResultStep c7Cfg (getJobStep (enqueueNewJobs initDisp [5]) 10) 5 true) :=
    DStep.submit (getJobStep (enqueueNewJobs initDisp [5]) 10) 5 true
  have h4 : DStep c7Cfg
      (submitResultStep c7Cfg (getJobStep (enqueueNewJobs initDisp [5]) 10) 5 true) c7State :=
    DStep.produce _ [5] (by decide) (by decide) (by decide) (by decide)
  exact (((Relation.ReflTransGen.refl.tail h1).tail h2).tail h3).tail h4

/- ===== Segment assembly claims ===== -/

theorem segsGo_mem (votes : List (ℕ × String)) (minF nframes : ℕ) :
    ∀ l sid seg, seg ∈ segsGo votes minF nframes l sid →
      minF ≤ seg.end_frame - seg.start_frame ∧
      ∃ i, l[i]? = some seg.start_frame ∧ l[i + 1]? = some seg.end_frame := by
  intro l
  induction l with
  | nil => intro sid seg h; simp [segsGo] at h
  | cons a rest ih =>
    intro sid seg h
    cases rest with
    | nil => simp [segsGo] at h
    | cons e rest' =>
      rw [segsGo] at h
      split at h
      · obtain ⟨h1, i, h2, h3⟩ := ih _ _ h
        exact ⟨h1, i + 1, by simpa using h2, by simpa using h3⟩
      · split at h
        · obtain ⟨h1, i, h2, h3⟩ := ih _ _ h
          exact ⟨h1, i + 1, by simpa using h2, by simpa using h3⟩
        · rcases List.mem_cons.mp h with rfl | h2
          · refine ⟨by simp; omega, 0, by simp, by simp⟩
          · obtain ⟨h1, i, h2', h3⟩ := ih _ _ h2
            exact ⟨h1, i + 1, by simpa using h2', by simpa using h3⟩

/-- C4 amended: every emitted segment spans exactly one consecutive pair of
final cut points (so a dropped interval is never merged into a neighbour) and
its length is at least `min_frames = max(1, int(0.8·fps))` — truncation, not
rounding, of `0.8·fps`; with fps=30 this is 24, so every interval shorter than
24 frames is dropped entirely. -/
theorem segment_min_frames_policy :
    (∀ (cw : List ℚ) (sid : String) (windows : List Window) (by_wid : ℕ → Option VlmJson)
      (fps : ℚ) (nframes fpw : ℕ) (art : SegArtifact) (seg : Seg),
      build_segments_via_cuts cw sid windows by_wid fps nframes fpw = some art →
      seg ∈ art.segments →
      segMinFrames fps ≤ seg.end_frame - seg.start_frame ∧
      ∃ i, (finalCutPoints cw windows by_wid fps nframes fpw)[i]? = some seg.start_frame ∧
        (finalCutPoints cw windows by_wid fps nframes fpw)[i + 1]? = some seg.end_frame) ∧
    segMinFrames 30 = 24 := by
  constructor
  · intro cw sid windows by_wid fps nframes fpw art seg hart hseg
    rw [build_segments_via_cuts] at hart
    split at hart
    · exact absurd hart (by simp)
    · rw [Option.some_inj] at hart
      subst hart
      exact segsGo_mem _ _ _ _ _ _ hseg
  · decide

/-- C4 amended witness: with fps=27 (min_frames = 21) the sole surviving
interval [0, 21) of the counterexample input indeed has length ≥ 21 and spans
consecutive cut points. -/
theorem segment_min_frames_policy_witness :
    (build_segments_via_cuts (List.replicate 16 1) "s" [⟨0, 0, 20, [0, 5, 10, 15, 20]⟩]
        (fun wid => if wid = 0 then some ⟨[], ["pick"]⟩ else none) 27 21 16 =
      some ⟨"s", 21, [⟨0, 0, 21, "pick", 1⟩]⟩) ∧
    (segMinFrames 27 ≤ (⟨0, 0, 21, "pick", 1⟩ : Seg).end_frame -
        (⟨0, 0, 21, "pick", 1⟩ : Seg).start_frame ∧
      ∃ i, (finalCutPoints (List.replicate 16 1) [⟨0, 0, 20, [0, 5, 10, 15, 20]⟩]
          (fun wid => if wid = 0 then some ⟨[], ["pick"]⟩ else none) 27 21 16)[i]? =
          some (⟨0, 0, 21, "pick", 1⟩ : Seg).start_frame ∧
        (finalCutPoints (List.replicate 16 1) [⟨0, 0, 20, [0, 5, 10, 15, 20]⟩]
          (fun wid => if wid = 0 then some ⟨[], ["pick"]⟩ else none) 27 21 16)[i + 1]? =
          some (⟨0, 0, 21, "pick", 1⟩ : Seg).end_frame) :=
  ⟨by decide,
   (segment_min_frames_policy.1 (List.replicate 16 1) "s" [⟨0, 0, 20, [0, 5, 10, 15, 20]⟩]
     (fun wid => if wid = 0 then some ⟨[], ["pick"]⟩ else none) 27 21 16
     ⟨"s", 21, [⟨0, 0, 21, "pick", 1⟩]⟩ ⟨0, 0, 21, "pick", 1⟩ (by decide) (by decide))⟩

/-- C4 counterexample: the claim computes min_frames by **rounding** 0.8·fps.
With fps=27 the code truncates: `int(0.8*27) = 21`, while `round(0.8·27) = 22`;
an interval of length 21 (shorter than the claimed min_frames 22) is *not*
dropped — the code emits a segment for it. -/
theorem min_frames_truncates_not_rounds :
    build_segments_via_cuts (List.replicate 16 1) "s" [⟨0, 0, 20, [0, 5, 10, 15, 20]⟩]
      (fun wid => if wid = 0 then some ⟨[], ["pick"]⟩ else none) 27 21 16 =
      some ⟨"s", 21, [⟨0, 0, 21, "pick", 1⟩]⟩ ∧
    ((21 : ℤ) - 0 < max 1 (round ((4 : ℚ) / 5 * 27))) := by
  refine ⟨by decide, ?_⟩
  norm_num [round_eq]

theorem sortedDedup_pair (n : ℕ) (hn : 0 < n) : sortedDedup [0, n] = [0, n] := by
  simp [sortedDedup, insertSortedU, hn]

theorem foldl_firstUniq_ne_nil (l acc : List String) (hacc : acc ≠ []) :
    l.foldl (fun acc x => if x ∈ acc then acc else acc ++ [x]) acc ≠ [] := by
  induction l generalizing acc with
  | nil => exact hacc
  | cons x xs ih =>
    refine ih _ ?_
    dsimp only
    split
    · exact hacc
    · simp

theorem mostCommon_isSome (l : List String) (h : l ≠ []) : ∃ x, mostCommon l = some x := by
  unfold mostCommon
  cases hf : firstUniq l with
  | nil =>
    exfalso
    cases l with
    | nil => exact h rfl
    | cons a t =>
      refine foldl_firstUniq_ne_nil t [a] (by simp) ?_
      simpa [firstUniq] using hf
  | cons a rest => exact ⟨_, rfl⟩

theorem votesOfWindow_lt (nframes : ℕ) (w : Window) (v : VlmJson) :
    ∀ p ∈ votesOfWindow nframes w v, p.1 < nframes := by
  intro p hp
  unfold votesOfWindow at hp
  rw [List.mem_flatMap] at hp
  obtain ⟨i, -, hp⟩ := hp
  rcases hg : v.instructions.get? i with - | raw
  · rw [hg] at hp; simp at hp
  · rw [hg] at hp
    dsimp only at hp
    rcases hva : validInst raw with - | inst
    · rw [hva] at hp; simp at hp
    · rw [hva] at hp
      dsimp only at hp
      simp only [List.mem_filterMap] at hp
      obtain ⟨k, -, hk⟩ := hp
      split at hk
      · rename_i hcond
        rw [Option.some_inj] at hk
        rw [← hk]
        exact hcond.2
      · simp at hk

theorem windowVotes_lt (nframes : ℕ) (windows : List Window) (by_wid : ℕ → Option VlmJson) :
    ∀ p ∈ windowVotes nframes windows by_wid, p.1 < nframes := by
  intro p hp
  unfold windowVotes at hp
  rw [List.mem_flatMap] at hp
  obtain ⟨q, -, hq⟩ := hp
  exact votesOfWindow_lt nframes q.1 q.2 p hq

theorem candidatesFor_votes_nil (nframes s e : ℕ) :
    candidatesFor [] nframes s e = [] := by
  unfold candidatesFor
  have hz : ∀ f : ℕ, (if f < nframes then votesAt [] f else []) = ([] : List String) := by
    intro f
    split <;> simp [votesAt]
  rw [List.flatMap_eq_nil_iff.mpr fun f _ => hz f,
    List.flatMap_eq_nil_iff.mpr fun f _ => hz f]
  simp

theorem candidatesFor_full_ne_nil (votes : List (ℕ × String)) (nframes : ℕ)
    (hne : votes ≠ []) (hlt : ∀ p ∈ votes, p.1 < nframes) :
    candidatesFor votes nframes 0 nframes ≠ [] := by
  obtain ⟨p, hp⟩ := List.exists_mem_of_ne_nil votes hne
  have hmem : p.2 ∈ (List.range' 0 (nframes - 0)).flatMap
      (fun f => if f < nframes then votesAt votes f else []) := by
    rw [List.mem_flatMap]
    refine ⟨p.1, ?_, ?_⟩
    · rw [List.mem_range'_1]
      exact ⟨Nat.zero_le _, by have := hlt p hp; omega⟩
    · rw [if_pos (hlt p hp)]
      unfold votesAt
      exact List.mem_map_of_mem Prod.snd (List.mem_filter.mpr ⟨hp, by simp⟩)
  unfold candidatesFor
  split
  · exact fun hc => (List.ne_nil_of_mem hmem) hc
  · assumption

theorem segsGo_pair (votes : List (ℕ × String)) (minF nframes n sid : ℕ) :
    segsGo votes minF nframes [0, n] sid =
      if n - 0 < minF then []
      else
        match mostCommon (candidatesFor votes nframes 0 n) with
        | none => []
        | some inst => [⟨sid, 0, n, inst, 1⟩] := by
  rw [segsGo]
  split
  · rfl
  · cases mostCommon (candidatesFor votes nframes 0 n) <;> rfl

/-- C3 amended: for a sample (frame_count ≥ 1) whose recorded WindowResults all
report zero transitions, build_segments_via_cuts outputs: no segments when no
non-empty, non-"unknown" instruction vote exists on the timeline; no segments
when frame_count < min_frames = max(1, int(0.8·fps)) — even when votes exist
(the sole interval [0, frame_count) is dropped as too short); and exactly one
segment spanning [0, frame_count) when a vote exists and frame_count ≥ min_frames. -/
theorem no_transitions_segment_dichotomy (cw : List ℚ) (sid : String) (windows : List Window)
    (by_wid : ℕ → Option VlmJson) (fps : ℚ) (nframes fpw : ℕ)
    (hn : 1 ≤ nframes)
    (htr : ∀ p ∈ recordedWindows windows by_wid, p.2.transitions = []) :
    (windowVotes nframes windows by_wid = [] →
      build_segments_via_cuts cw sid windows by_wid fps nframes fpw =
        some ⟨sid, nframes, []⟩) ∧
    (nframes < segMinFrames fps →
      build_segments_via_cuts cw sid windows by_wid fps nframes fpw =
        some ⟨sid, nframes, []⟩) ∧
    (windowVotes nframes windows by_wid ≠ [] → segMinFrames fps ≤ nframes →
      ∃ inst, build_segments_via_cuts cw sid windows by_wid fps nframes fpw =
        some ⟨sid, nframes, [⟨0, 0, nframes, inst, 1⟩]⟩) := by
  have hne0 : ¬ nframes = 0 := by omega
  have hcuts : windowCuts cw fpw windows by_wid = [] := by
    unfold windowCuts
    refine List.flatMap_eq_nil_iff.mpr ?_
    intro p hp
    simp [cutsOfWindow, htr p hp]
  have hcps : finalCutPoints cw windows by_wid fps nframes fpw = [0, nframes] := by
    unfold finalCutPoints
    rw [hcuts]
    show sortedDedup ([0] ++ clusterCuts _ (sortByFst []) ++ [nframes]) = _
    have h1 : clusterCuts (clusterGap fps) (sortByFst []) = [] := rfl
    rw [h1]
    simpa using sortedDedup_pair nframes (by omega)
  unfold build_segments_via_cuts
  rw [if_neg hne0, hcps]
  refine ⟨?_, ?_, ?_⟩
  · intro hvn
    rw [hvn, segsGo_pair]
    split
    · rfl
    · rw [candidatesFor_votes_nil]
      rfl
  · intro hshort
    rw [segsGo_pair, if_pos (by omega)]
  · intro hvne hlong
    have hcand : candidatesFor (windowVotes nframes windows by_wid) nframes 0 nframes ≠ [] :=
      candidatesFor_full_ne_nil _ _ hvne (windowVotes_lt nframes windows by_wid)
    obtain ⟨inst, hinst⟩ := mostCommon_isSome _ hcand
    refine ⟨inst, ?_⟩
    rw [segsGo_pair, if_neg (by omega), hinst]

/-- C3 amended witness: one window of a 30-frame sample, a single "pick" vote
and no transitions; min_frames = 24 ≤ 30, so exactly one segment [0, 30). -/
theorem no_transitions_segment_dichotomy_witness :
    (1 ≤ 30 ∧ ∀ p ∈ recordedWindows [⟨0, 0, 29, [0, 10, 20, 29]⟩]
        (fun wid => if wid = 0 then some ⟨[], ["pick"]⟩ else none), p.2.transitions = []) ∧
    (windowVotes 30 [⟨0, 0, 29, [0, 10, 20, 29]⟩]
        (fun wid => if wid = 0 then some ⟨[], ["pick"]⟩ else none) ≠ [] →
      segMinFrames 30 ≤ 30 →
      ∃ inst, build_segments_via_cuts (List.replicate 16 1) "w" [⟨0, 0, 29, [0, 10, 20, 29]⟩]
          (fun wid => if wid = 0 then some ⟨[], ["pick"]⟩ else none) 30 30 16 =
        some ⟨"w", 30, [⟨0, 0, 30, inst, 1⟩]⟩) :=
  ⟨⟨by decide, by decide⟩,
   (no_transitions_segment_dichotomy (List.replicate 16 1) "w" [⟨0, 0, 29, [0, 10, 20, 29]⟩]
     (fun wid => if wid = 0 then some ⟨[], ["pick"]⟩ else none) 30 30 16
     (by decide) (by decide)).2.2⟩

/-- C3 counterexample: a 10-frame sample at fps=30 with zero transitions and a
"pick" vote at every frame yields **zero** segments (10 < min_frames = 24 drops
the only interval), although a non-empty, non-"unknown" vote exists — the claim
demands exactly one segment spanning [0, 10). -/
theorem short_sample_zero_segments :
    build_segments_via_cuts (List.replicate 16 1) "s" [⟨0, 0, 9, [0, 1, 2, 3, 4, 5, 6, 7, 8, 9]⟩]
      (fun wid => if wid = 0 then some ⟨[], ["pick"]⟩ else none) 30 10 16 =
      some ⟨"s", 10, []⟩ ∧
    windowVotes 10 [⟨0, 0, 9, [0, 1, 2, 3, 4, 5, 6, 7, 8, 9]⟩]
      (fun wid => if wid = 0 then some ⟨[], ["pick"]⟩ else none) ≠ [] := by
  exact ⟨by decide, by decide⟩
